import Mathlib

/-!
Verification of the uap workflow engine (shallow embedding).

The definitions below embed, in Lean, the parts of the repository that the
verified properties are about.  Python dictionaries are modelled as
association lists that preserve insertion order (as Python 3.7+ dicts do),
Python sets as duplicate-free insertion (membership-tested append), and
Python exceptions as the Except monad.  Each definition carries a comment
naming the source function it embeds.
-/

namespace Uap

/-- Model of a Python value as it occurs in step option dictionaries. -/
inductive PyVal where
  | pnone : PyVal
  | pbool : Bool → PyVal
  | pint : Int → PyVal
  | pstr : String → PyVal
  | plist : List PyVal → PyVal
  | pdict : List (String × PyVal) → PyVal

mutual

/-- Model of the Python equality test on values (order-sensitive on dicts,
which suffices for the option values the engine compares). -/
def pyEq : PyVal → PyVal → Bool
  | PyVal.pnone, PyVal.pnone => true
  | PyVal.pbool a, PyVal.pbool b => a == b
  | PyVal.pint a, PyVal.pint b => a == b
  | PyVal.pstr a, PyVal.pstr b => a == b
  | PyVal.plist a, PyVal.plist b => pyEqList a b
  | PyVal.pdict a, PyVal.pdict b => pyEqDict a b
  | _, _ => false

/-- Elementwise Python equality of two lists. -/
def pyEqList : List PyVal → List PyVal → Bool
  | [], [] => true
  | x :: xs, y :: ys => pyEq x y && pyEqList xs ys
  | _, _ => false

/-- Entrywise Python equality of two dicts (in insertion order). -/
def pyEqDict : List (String × PyVal) → List (String × PyVal) → Bool
  | [], [] => true
  | (kx, vx) :: xs, (ky, vy) :: ys => kx == ky && pyEq vx vy && pyEqDict xs ys
  | _, _ => false

end

/-- Python membership test of a string in a list of values: str compares
unequal to every value of another type. -/
def pyStrInList (s : String) (l : List PyVal) : Bool :=
  l.any (fun v => pyEq (PyVal.pstr s) v)

/-- Ordered dictionary lookup (Python dict indexing). -/
def dlookup {α : Type} : List (String × α) → String → Option α
  | [], _ => Option.none
  | (k, v) :: rest, key => if k = key then Option.some v else dlookup rest key

/-- Ordered dictionary update: overwrite in place or append (Python dict assignment). -/
def dset {α : Type} : List (String × α) → String → α → List (String × α)
  | [], key, v => [(key, v)]
  | (k, w) :: rest, key, v =>
      if k = key then (k, v) :: rest else (k, w) :: dset rest key v

/-- Python dict.setdefault. -/
def dsetdefault {α : Type} (d : List (String × α)) (key : String) (v : α) :
    List (String × α) :=
  match dlookup d key with
  | Option.some _ => d
  | Option.none => d ++ [(key, v)]

/-- Python set.add on a list model of a set: append unless already present. -/
def setAdd (s : List String) (x : String) : List String :=
  if x ∈ s then s else s ++ [x]

/-- Python os.path.basename for the paths the engine builds: the part after
the last slash. -/
def pyBasename (s : String) : String :=
  String.mk ((s.data.reverse.takeWhile (fun c => c ≠ '/')).reverse)

/-- True when the string contains a slash (the Python test for a slash in an
output file name). -/
def hasSlash (s : String) : Bool :=
  s.data.contains '/'

/-- An Except value is an error. -/
def isError {ε α : Type} : Except ε α → Prop
  | Except.error _ => True
  | Except.ok _ => False

instance {ε α : Type} (x : Except ε α) : Decidable (isError x) := by
  cases x <;> simp [isError] <;> infer_instance

/-! ### Cores (AbstractStep.set_cores / get_cores, src/include/abstract_step.py 942-955)

Python passes set_cores an arbitrary value; the code checks
isinstance(cores, int) and cores >= 1.  We model the argument as either an
int or some non-int value. -/

/-- Argument handed to set_cores: a Python int or any non-int value. -/
inductive CoresArg where
  | int : Int → CoresArg
  | nonInt : CoresArg
deriving DecidableEq, Repr

/-- Embedding of AbstractStep.set_cores: raise unless the argument is an int
that is at least 1, else store it. -/
def set_cores (cores : CoresArg) : Except String Int :=
  match cores with
  | CoresArg.int i =>
      if i < 1 then Except.error "Cores need to be a positive integer."
      else Except.ok i
  | CoresArg.nonInt => Except.error "Cores need to be a positive integer."

/-- Embedding of AbstractStep.get_cores: return the stored core count. -/
def get_cores (c : Int) : Int := c

/-- The stored core count after a sequence of set_cores calls, starting from
the initializer value 1 (self._cores = 1 in AbstractStep.__init__); a call
that raises leaves the stored value unchanged. -/
def coresAfter (trace : List CoresArg) : Int :=
  trace.foldl
    (fun cur a =>
      match set_cores a with
      | Except.ok i => i
      | Except.error _ => cur)
    1

/-- The size of the hashing pool opened in AbstractStep.run:
multiprocessing.Pool(self.get_cores()). -/
def hashPoolSize (trace : List CoresArg) : Int :=
  get_cores (coresAfter trace)

/-! ### declare_run (AbstractStep.declare_run, src/include/abstract_step.py 132-149)

The run registry self._runs is modelled by the list of declared run ids. -/

/-- Python whitespace characters matched by the regex class backslash-s
on ASCII text. -/
def isPyWhitespace (c : Char) : Bool :=
  c = ' ' ∨ c = '\t' ∨ c = '\n' ∨ c = '\r' ∨ c = '\x0b' ∨ c = '\x0c'

/-- Embedding of re.sub with the whitespace class and replacement underscore:
every whitespace character becomes an underscore. -/
def pyWsToUnderscore (s : String) : String :=
  String.mk (s.data.map (fun c => if isPyWhitespace c then '_' else c))

/-- Embedding of AbstractStep.declare_run: substitute whitespace, reject an
already declared id, otherwise register a new run under the substituted id.
Returns the new registry together with the registered id. -/
def declare_run (runs : List String) (run_id : String) :
    Except String (List String × String) :=
  let rid := pyWsToUnderscore run_id
  if rid ∈ runs then
    Except.error ("Cannot declare the same run ID twice: " ++ rid ++ ".")
  else
    Except.ok (runs ++ [rid], rid)

/-! ### add_connection (AbstractStep.add_connection, src/include/abstract_step.py 969-988) -/

/-- The connection-related fields of an AbstractStep instance. -/
structure ConnState where
  connections : List String
  optionalConnections : List String
  needsParents : Bool
  connectionFormats : List (String × String)
  connectionDescriptions : List (String × String)
deriving DecidableEq, Repr

/-- The connection fields as set up by AbstractStep.__init__. -/
def ConnState.init : ConnState :=
  ⟨[], [], false, [], []⟩

/-- Embedding of AbstractStep.add_connection.  The name check mirrors the
slicing comparisons connection[0:3] and connection[0:4]; the two connection
collections are Python sets. -/
def add_connection (st : ConnState) (connection : String) (optional : Bool)
    (format : Option String) (description : Option String) :
    Except String ConnState :=
  if ¬ (connection.take 3 = "in/" ∨ connection.take 4 = "out/") then
    Except.error "A connection must start with in/ or out/."
  else
    let st := if connection.take 3 = "in/" then
        { st with needsParents := true } else st
    let st := if optional = true then
        { st with optionalConnections := setAdd st.optionalConnections connection }
      else
        { st with connections := setAdd st.connections connection }
    let st := match format with
      | Option.some f => { st with connectionFormats := dset st.connectionFormats connection f }
      | Option.none => st
    let st := match description with
      | Option.some dsc => { st with connectionDescriptions := dset st.connectionDescriptions connection dsc }
      | Option.none => st
    Except.ok st

/-! ### set_options (AbstractStep.set_options, src/include/abstract_step.py 169-236) -/

/-- AbstractStep.UNDERSCORE_OPTIONS (src/include/abstract_step.py 49-57). -/
def UNDERSCORE_OPTIONS : List String :=
  ["_depends",
   "_volatile",
   "_BREAK",
   "_connect",
   "_cluster_submit_options",
   "_cluster_pre_job_command",
   "_cluster_post_job_command",
   "_cluster_job_quota"]

/-- The Python type of an option value as checked by set_options (the
declared types come from the set int, float, str, bool, list, dict). -/
inductive PyType where
  | tInt : PyType
  | tFloat : PyType
  | tStr : PyType
  | tBool : PyType
  | tList : PyType
  | tDict : PyType
deriving DecidableEq, Repr

/-- Python type(value) for the modelled values; None has no settable type. -/
def pyTypeOf : PyVal → Option PyType
  | PyVal.pnone => Option.none
  | PyVal.pbool _ => Option.some PyType.tBool
  | PyVal.pint _ => Option.some PyType.tInt
  | PyVal.pstr _ => Option.some PyType.tStr
  | PyVal.plist _ => Option.some PyType.tList
  | PyVal.pdict _ => Option.some PyType.tDict

/-- The value is the Python None. -/
def pyIsNone : PyVal → Bool
  | PyVal.pnone => true
  | _ => false

/-- Declared option info as built by AbstractStep.add_option. -/
structure OptInfo where
  types : List PyType
  optional : Bool
  dflt : PyVal
  choices : Option (List PyVal)

/-- The type check of set_options: value is not None and type(value) not in
the declared types. -/
def optTypeBad (info : OptInfo) (value : PyVal) : Bool :=
  (! pyIsNone value) &&
    match pyTypeOf value with
    | Option.some t => ! info.types.contains t
    | Option.none => true

/-- The choices check of set_options: choices is not None and value not in
choices. -/
def optChoiceBad (info : OptInfo) (value : PyVal) : Bool :=
  match info.choices with
  | Option.some cs => ¬ cs.any (fun c => pyEq value c)
  | Option.none => false

/-- The first loop of set_options over the configured options: underscore
keys must be engine-reserved, other keys must be declared and pass the type
and choices checks. -/
def setOptionsLoop (defined : List (String × OptInfo)) (acc : List (String × PyVal)) :
    List (String × PyVal) → Except String (List (String × PyVal))
  | [] => Except.ok acc
  | (key, value) :: rest =>
      if key.take 1 = "_" then
        if key ∉ UNDERSCORE_OPTIONS then
          Except.error ("Invalid option: " ++ key)
        else
          setOptionsLoop defined (dset acc key value) rest
      else
        match dlookup defined key with
        | Option.none => Except.error ("Unknown option: " ++ key)
        | Option.some info =>
            if optTypeBad info value then
              Except.error ("Invalid type for option " ++ key ++ ".")
            else if optChoiceBad info value then
              Except.error ("Invalid value specified for option " ++ key ++ ".")
            else
              setOptionsLoop defined (dset acc key value) rest

/-- The second loop of set_options: default values for unset options; a
required option that is still missing is fatal. -/
def applyDefaults (acc : List (String × PyVal)) :
    List (String × OptInfo) → Except String (List (String × PyVal))
  | [] => Except.ok acc
  | (key, info) :: rest =>
      match dlookup acc key with
      | Option.some _ => applyDefaults acc rest
      | Option.none =>
          if info.optional ≠ true then
            Except.error ("Required option not set: " ++ key ++ ".")
          else
            applyDefaults (dset acc key info.dflt) rest

/-- The block of setdefault calls of set_options (volatile, the cluster
options, the job quota, the connect map and the depends list). -/
def applyStaticDefaults (d : List (String × PyVal)) : List (String × PyVal) :=
  let d := dsetdefault d "_volatile" (PyVal.pbool false)
  let d := dsetdefault d "_cluster_submit_options" (PyVal.pstr "")
  let d := dsetdefault d "_cluster_pre_job_command" (PyVal.pstr "")
  let d := dsetdefault d "_cluster_post_job_command" (PyVal.pstr "")
  let d := dsetdefault d "_cluster_job_quota" (PyVal.pint 0)
  let d := dsetdefault d "_connect" (PyVal.pdict [])
  let d := dsetdefault d "_depends" (PyVal.plist [])
  d

/-- Wrap a non-list depends value in a singleton list, as set_options does. -/
def normalizeDepends (d : List (String × PyVal)) : List (String × PyVal) :=
  match dlookup d "_depends" with
  | Option.some (PyVal.plist _) => d
  | Option.some v => dset d "_depends" (PyVal.plist [v])
  | Option.none => d

/-- Python coercion of a connect value to a list: in_cons if it is a list,
else the singleton list. -/
def asPyList : PyVal → List PyVal
  | PyVal.plist l => l
  | v => [v]

/-- Parent name of one connect target: parent_cons.split with slash, first
element, that is, the characters before the first slash.  A non-string
target raises (Python AttributeError on split). -/
def parentOf (v : PyVal) : Except String String :=
  match v with
  | PyVal.pstr s => Except.ok (String.mk (s.data.takeWhile (fun c => c ≠ '/')))
  | _ => Except.error "AttributeError: split"

/-- The implied-dependency loop of set_options: append each connect parent
that is not already in the depends list and is not the name empty. -/
def appendParents (depends : List PyVal) :
    List PyVal → Except String (List PyVal)
  | [] => Except.ok depends
  | pc :: rest =>
      match parentOf pc with
      | Except.error e => Except.error e
      | Except.ok parent =>
          if ¬ pyStrInList parent depends ∧ parent ≠ "empty" then
            appendParents (depends ++ [PyVal.pstr parent]) rest
          else
            appendParents depends rest

/-- The add-implied-dependencies block of set_options: walk the values of
the connect dict and grow the depends list. -/
def addImpliedDepends (d : List (String × PyVal)) :
    Except String (List (String × PyVal)) :=
  match dlookup d "_connect", dlookup d "_depends" with
  | Option.some (PyVal.pdict cd), Option.some (PyVal.plist dep) =>
      match appendParents dep ((cd.map (fun p => p.2)).map asPyList).flatten with
      | Except.error e => Except.error e
      | Except.ok newDep => Except.ok (dset d "_depends" (PyVal.plist newDep))
  | _, _ => Except.error "AttributeError: values"

/-- Embedding of AbstractStep.set_options: check and store the configured
options, fill in defaults, normalize the depends list and add the parents
implied by the connect map. -/
def set_options (defined : List (String × OptInfo)) (options : List (String × PyVal)) :
    Except String (List (String × PyVal)) :=
  match setOptionsLoop defined [] options with
  | Except.error e => Except.error e
  | Except.ok d =>
      match applyDefaults d defined with
      | Except.error e => Except.error e
      | Except.ok d => addImpliedDepends (normalizeDepends (applyStaticDefaults d))

/-! ### FSCache (src/include/fscache.py)

An FSCache instance holds self.cache, a dict from method name to a dict
from argument tuple to result.  The surrounding filesystem is modelled as
an oracle indexed by an observation time, so that a change of the
filesystem between two calls is expressible.  Results are drawn from an
arbitrary type V. -/

/-- The self.cache field of FSCache: method name to argument tuple to
cached result. -/
def FSCacheT (V : Type) : Type := List (String × List (List String × V))

/-- Lookup in the inner dict of one method name, keyed by argument tuple. -/
def argsGet {V : Type} (inner : List (List String × V)) (args : List String) :
    Option V :=
  match inner.find? (fun p => p.1 == args) with
  | Option.some p => Option.some p.2
  | Option.none => Option.none

/-- Update of the inner dict of one method name: overwrite an existing
entry for the argument tuple or append a new one. -/
def argsSet {V : Type} (inner : List (List String × V)) (args : List String)
    (v : V) : List (List String × V) :=
  if (inner.find? (fun p => p.1 == args)).isSome then
    inner.map (fun p => if p.1 == args then (p.1, v) else p)
  else inner ++ [(args, v)]

/-- Lookup of a nested cache entry: self.cache contains the name and the
inner dict contains the args. -/
def cacheGet {V : Type} (st : FSCacheT V) (name : String) (args : List String) :
    Option V :=
  match dlookup st name with
  | Option.some inner => argsGet inner args
  | Option.none => Option.none

/-- Store a nested cache entry, creating the inner dict when the name is
not present yet. -/
def cacheSet {V : Type} (st : FSCacheT V) (name : String) (args : List String)
    (v : V) : FSCacheT V :=
  match dlookup st name with
  | Option.some inner => dset st name (argsSet inner args v)
  | Option.none => dset st name [(args, v)]

/-- Embedding of the method closure returned by FSCache.__getattr__: serve
the call from the cache when the name and args are present, otherwise ask
os.path (the oracle fs at observation time t) and cache the result. -/
def fscCall {V : Type} (fs : Nat → String → List String → V) (t : Nat)
    (st : FSCacheT V) (name : String) (args : List String) : V × FSCacheT V :=
  match cacheGet st name args with
  | Option.some v => (v, st)
  | Option.none =>
      let v := fs t name args
      (v, cacheSet st name args v)

/-- Embedding of FSCache.sha256sum_of: a non-None value is stored under the
sha256sums key and returned; otherwise the cached hash is served, or the
hash is computed (oracle sha at observation time t) and cached. -/
def sha256sum_of {V : Type} (sha : Nat → String → V) (t : Nat)
    (st : FSCacheT V) (path : String) (value : Option V) : V × FSCacheT V :=
  match value with
  | Option.some v => (v, cacheSet st "sha256sums" [path] v)
  | Option.none =>
      match cacheGet st "sha256sums" [path] with
      | Option.some v => (v, st)
      | Option.none =>
          let v := sha t path
          (v, cacheSet st "sha256sums" [path] v)

/-- Embedding of FSCache.clear: the cache becomes a fresh empty dict. -/
def fscClear {V : Type} (_st : FSCacheT V) : FSCacheT V := []

/-! ### Run pre-flight (AbstractStep.run, src/include/abstract_step.py 499-569)

The filesystem is modelled as the set of existing directories and the set
of existing files; paths are abstract strings. -/

/-- A filesystem snapshot: the directories and the files that exist. -/
structure FS where
  dirs : List String
  files : List String
deriving DecidableEq, Repr

/-- Python os.path.exists: true for a file or a directory. -/
def FS.pexists (fs : FS) (p : String) : Bool :=
  fs.files.contains p || fs.dirs.contains p

/-- Python os.path.isdir. -/
def FS.isDir (fs : FS) (p : String) : Bool :=
  fs.dirs.contains p

/-- Python os.makedirs on an abstract path. -/
def FS.mkdirs (fs : FS) (p : String) : FS :=
  { fs with dirs := setAdd fs.dirs p }

/-- Python open(p, w) followed by a write: the file exists afterwards. -/
def FS.writeFile (fs : FS) (p : String) : FS :=
  { fs with files := setAdd fs.files p }

/-- The per-run paths used by AbstractStep.run. -/
structure RunPaths where
  outputDir : String
  executingPing : String
  queuedPing : String
  tempDir : String
deriving DecidableEq, Repr

/-- Embedding of the pre-flight part of AbstractStep.run: create the output
directory when missing, abort when the executing ping exists, otherwise
create the temporary output directory and write the executing ping file.
The result carries the filesystem as left by the code together with the
raised error, if any. -/
def runPreflight (fs : FS) (r : RunPaths) : FS × Option String :=
  let fs1 := if ¬ fs.isDir r.outputDir then fs.mkdirs r.outputDir else fs
  if fs1.pexists r.executingPing then
    (fs1, Option.some "seems to be already running, exiting...")
  else
    let fs2 := fs1.mkdirs r.tempDir
    let fs3 := fs2.writeFile r.executingPing
    (fs3, Option.none)

/-! ### Post-run integrity and publish (AbstractStep.run, src/include/abstract_step.py 645-693 and 751-757)

After the exec groups ran without signal or exception, the code walks all
declared output files, skips None entries and entries containing a slash,
and for each remaining file checks that the temporary directory holds it;
a missing file raises, the exception is caught, and the later rename loop
is skipped entirely because caught_exception is set. -/

/-- Errors raised by the output-collection loop. -/
inductive IntegrityErr where
  | missingOutput : String → String → IntegrityErr
  | keyError : String → IntegrityErr
deriving DecidableEq, Repr

/-- The inner loop over the output files of one connection tag: build the
temp-to-final move map, raising when an announced output is missing from
the temporary directory.  knownDesig is the designation entry of
known_paths, tempContents the set of basenames present in temp_dir. -/
def collectFiles (knownDesig : List (String × String)) (tempContents : List String)
    (tempDir outputDir : String) :
    List (Option String) → Except IntegrityErr (List (String × String))
  | [] => Except.ok []
  | Option.none :: rest =>
      collectFiles knownDesig tempContents tempDir outputDir rest
  | Option.some f :: rest =>
      if hasSlash f then
        collectFiles knownDesig tempContents tempDir outputDir rest
      else
        let source := tempDir ++ "/" ++ pyBasename f
        let newPath := outputDir ++ "/" ++ pyBasename f
        if tempContents.contains (pyBasename f) then
          match dlookup knownDesig newPath with
          | Option.none => Except.error (IntegrityErr.keyError newPath)
          | Option.some desig =>
              if desig = "output" then
                (collectFiles knownDesig tempContents tempDir outputDir rest).map
                  (fun m => (source, newPath) :: m)
              else
                collectFiles knownDesig tempContents tempDir outputDir rest
        else
          Except.error (IntegrityErr.missingOutput f source)

/-- The outer loop over the connection tags of run.get_output_files(). -/
def collectToBeMoved (knownDesig : List (String × String)) (tempContents : List String)
    (tempDir outputDir : String) :
    List (String × List (Option String)) → Except IntegrityErr (List (String × String))
  | [] => Except.ok []
  | (_tag, fl) :: rest =>
      match collectFiles knownDesig tempContents tempDir outputDir fl with
      | Except.error e => Except.error e
      | Except.ok m =>
          match collectToBeMoved knownDesig tempContents tempDir outputDir rest with
          | Except.error e => Except.error e
          | Except.ok ms => Except.ok (m ++ ms)

/-- The files actually renamed into the output directory: the whole rename
loop is guarded by caught_exception being None, so an error in the
collection loop means nothing is moved. -/
def movedFiles (knownDesig : List (String × String)) (tempContents : List String)
    (tempDir outputDir : String)
    (outputFiles : List (String × List (Option String))) : List (String × String) :=
  match collectToBeMoved knownDesig tempContents tempDir outputDir outputFiles with
  | Except.ok m => m
  | Except.error _ => []

/-! ### Connection resolution (AbstractStep.get_run_ids_in_connections_input_files, src/include/abstract_step.py 1143-1221)

The ConnectionsCollector class lives outside the embedded sources, so the
outcome of its connect method is carried by the parent records below. -/

/-- Modelled from the spec: one parent step as seen by the resolver.  The
ConnectionsCollector (module connections_collector, not among the embedded
sources) is summarized by the out-connections its connect call reports as
used and the in-connections it establishes, once for the explicit connect
map and once for the auto-bind fallback, following the spec description of
bind and auto_bind. -/
structure ParentConn where
  name : String
  hasRuns : Bool
  usedOut : List String
  estIn : List String
  autoUsedOut : List String
  autoEstIn : List String
deriving DecidableEq, Repr

/-- The per-parent loop of get_run_ids_in_connections_input_files: a parent
without runs is fatal, a parent with no usable connection (explicit map
first, then auto-bind) is fatal; otherwise the used out-connections and the
established in-connections accumulate. -/
def connectParents (usedOutAcc : List String) (existingAcc : List String) :
    List ParentConn → Except String (List String × List String)
  | [] => Except.ok (usedOutAcc, existingAcc)
  | p :: rest =>
      if ¬ p.hasRuns then
        Except.error ("The step " ++ p.name ++ " produces no output.")
      else
        let used := if p.usedOut ≠ [] then (p.usedOut, p.estIn)
          else (p.autoUsedOut, p.autoEstIn)
        if used.1 = [] then
          Except.error ("No connections could be made between the step and " ++ p.name ++ ".")
        else
          connectParents (used.1.foldl setAdd usedOutAcc)
            (used.2.foldl setAdd existingAcc) rest

/-- Embedding of the resolution checks of
get_run_ids_in_connections_input_files: validate the keys of the connect
map, bind every parent, then check the required in-connections (a warning
only) and the recognized out-connections (fatal).  Returns the established
in-connections together with the emitted warnings. -/
def get_run_ids_in_connections_input_files
    (allIn : List String) (requiredIn : List String)
    (connectOpts : List (String × PyVal)) (parents : List ParentConn) :
    Except String (List String × List String) :=
  if ∃ p ∈ connectOpts, p.1 ∉ allIn then
    Except.error "unknown input connection found in the connect map"
  else
    let setOut0 := ((connectOpts.map (fun p => p.2)).map asPyList).flatten
    let setOut := setOut0.filter (fun v => ¬ pyEq v (PyVal.pstr "empty"))
    match connectParents [] [] parents with
    | Except.error e => Except.error e
    | Except.ok (usedOut, existing) =>
        let missing := requiredIn.filter (fun c => c ∉ existing)
        let warnings := if missing ≠ [] then
            ["the required connection is not satisfied",
             "Deprecation: unmet required connections may trigger an error in future versions"]
          else []
        let unrecognized := setOut.filter
          (fun v => ¬ usedOut.any (fun u => pyEq v (PyVal.pstr u)))
        if ¬ unrecognized.isEmpty then
          Except.error "for some connections no parent run could be found"
        else
          Except.ok (existing, warnings)

/-! ### RawUrlSource.runs (src/include/sources/raw_url_sources.py 41-156) -/

/-- The valid download options of RawUrlSource.runs. -/
def download_opts : List String :=
  ["filename", "hashing-algorithm", "secure-hash", "uncompress", "url"]

/-- The mandatory download options of RawUrlSource.runs. -/
def mandatory_opts : List String := ["filename", "url"]

/-- The accepted hashing algorithms (including None). -/
def hash_algos : List PyVal :=
  [PyVal.pstr "md5", PyVal.pstr "sha1", PyVal.pstr "sha224",
   PyVal.pstr "sha256", PyVal.pstr "sha384", PyVal.pstr "sha512",
   PyVal.pnone]

/-- Python truthiness of a modelled value. -/
def pyTruthy : PyVal → Bool
  | PyVal.pnone => false
  | PyVal.pbool b => b
  | PyVal.pint i => i ≠ 0
  | PyVal.pstr s => s ≠ ""
  | PyVal.plist l => ! l.isEmpty
  | PyVal.pdict d => ! d.isEmpty

/-- The characters after the first occurrence of the scheme separator, when
the separator occurs. -/
def afterSchemeSep : List Char → Option (List Char)
  | [] => Option.none
  | ':' :: '/' :: '/' :: rest => Option.some rest
  | _ :: rest => afterSchemeSep rest

/-- Model of urllib.parse.urlparse(url).path: drop fragment and query; when
a scheme separator is present, drop it and the network location in front of
the first slash of the remainder. -/
def urlParsePath (url : String) : String :=
  let l := url.data.takeWhile (fun c => c ≠ '#')
  let l := l.takeWhile (fun c => c ≠ '?')
  match afterSchemeSep l with
  | Option.some rest => String.mk (rest.dropWhile (fun c => c ≠ '/'))
  | Option.none => String.mk l

/-- Model of os.path.splitext on a file name without directory part: split
at the last dot unless the name consists of leading dots only. -/
def pySplitext (s : String) : String × String :=
  let l := s.data
  let dotIdxs := (List.range l.length).filter (fun i => l.getD i ' ' = '.')
  match dotIdxs.getLast? with
  | Option.none => (s, "")
  | Option.some i =>
      if (l.take i).any (fun c => c ≠ '.') then
        (String.mk (l.take i), String.mk (l.drop i))
      else (s, "")

/-- Embedding of the body of RawUrlSource.runs for one entry of the
run-download-info option: all validation steps in source order, the
derivation of a file name from the URL, its unconditional overwrite by the
user-supplied filename, and the final extension check.  The returned string
is the name passed to run.add_output_file for connection raw. -/
def rawUrlProcessEntry (downloads : List (String × PyVal)) :
    Except String String :=
  let keys := downloads.map (fun p => p.1)
  let unknown := keys.filter (fun k => k ∉ download_opts)
  if unknown ≠ [] then Except.error "Unknown option(s) for download"
  else
  let missing := mandatory_opts.filter (fun k => k ∉ keys)
  if missing ≠ [] then Except.error "Download misses mandatory option(s)"
  else
  let dl := dset downloads "hashing-algorithm"
    ((dlookup downloads "hashing-algorithm").getD PyVal.pnone)
  let dl := dset dl "secure-hash" ((dlookup dl "secure-hash").getD PyVal.pnone)
  let dl := dset dl "uncompress" ((dlookup dl "uncompress").getD (PyVal.pbool false))
  let hashAlgo := (dlookup dl "hashing-algorithm").getD PyVal.pnone
  if ¬ hash_algos.any (fun a => pyEq hashAlgo a) then
    Except.error "Option hashing-algorithm has invalid value"
  else
  let secureHash := (dlookup dl "secure-hash").getD PyVal.pnone
  if (match secureHash with | PyVal.pstr _ => true | _ => false) = true
      ∧ ¬ pyTruthy hashAlgo then
    Except.error "Option secure-hash set but option hashing-algorithm is missing"
  else
  match dlookup dl "url" with
  | Option.some (PyVal.pstr url) =>
      let url_filename := pyBasename (urlParsePath url)
      let rootExt := pySplitext url_filename
      let is_gzipped := rootExt.2 = ".gz" ∨ rootExt.2 = ".gzip"
      let uncompress := pyTruthy ((dlookup dl "uncompress").getD (PyVal.pbool false))
      if ¬ is_gzipped ∧ uncompress then
        Except.error "Uncompression of non-gzipped file requested"
      else
      let _filenameFromUrl := if uncompress ∧ is_gzipped then rootExt.1 else url_filename
      match dlookup dl "filename" with
      | Option.some (PyVal.pstr fn) =>
          let rootExt2 := pySplitext (pyBasename fn)
          if is_gzipped ∧ uncompress ∧ (rootExt2.2 = ".gz" ∨ rootExt2.2 = ".gzip") then
            Except.error "The filename should NOT end on .gz or .gzip"
          else
            Except.ok fn
      | _ => Except.error "TypeError: expected str"
  | _ => Except.error "TypeError: expected str"

/-! ### Specification-side definitions

These definitions follow the wording of the specification (not the code)
and are compared with the embedded code in refinement-style theorems. -/

/-- The connect targets of all bindings, flattened in binding order. -/
def bindingTargets (conns : List (String × PyVal)) : List PyVal :=
  ((conns.map (fun p => p.2)).map asPyList).flatten

/-- The parent names of a list of binding targets, in order; defined only
when every target is a string. -/
def parentNamesOf : List PyVal → Option (List String)
  | [] => Option.some []
  | PyVal.pstr s :: rest =>
      (parentNamesOf rest).map
        (fun ps => String.mk (s.data.takeWhile (fun c => c ≠ '/')) :: ps)
  | _ :: _ => Option.none

/-- The parent step names referenced by the connect bindings, in binding
order; defined only when every target is a string. -/
def claimConnectParents (conns : List (String × PyVal)) : Option (List String) :=
  parentNamesOf (bindingTargets conns)

/-- The depends list as the claim describes it: the explicit entries in
order, followed by each referenced parent name that is not already in the
list and is not the special name empty, appended in binding order. -/
def claimDepends (explicit : List PyVal) (ps : List String) : List PyVal :=
  ps.foldl
    (fun acc p =>
      if pyStrInList p acc ∨ p = "empty" then acc else acc ++ [PyVal.pstr p])
    explicit

/-- An Except value is a success. -/
def exOk {ε α : Type} : Except ε α → Bool
  | Except.ok _ => true
  | Except.error _ => false

/-! ### Helper lemmas -/

theorem dlookup_dset {α : Type} (d : List (String × α)) (k : String) (v : α) :
    dlookup (dset d k v) k = Option.some v := by
  induction d with
  | nil => simp [dset, dlookup]
  | cons hd tl ih =>
      obtain ⟨k', w⟩ := hd
      by_cases h : k' = k
      · simp [dset, dlookup, h]
      · simp [dset, dlookup, h, ih]

theorem dlookup_dset_ne {α : Type} (d : List (String × α)) (k k' : String) (v : α)
    (h : k ≠ k') : dlookup (dset d k v) k' = dlookup d k' := by
  induction d with
  | nil => simp [dset, dlookup, h]
  | cons hd tl ih =>
      obtain ⟨k0, w⟩ := hd
      by_cases h0 : k0 = k
      · subst h0
        simp [dset, dlookup, h]
      · simp [dset, dlookup, h0, ih]

theorem argsGet_argsSet {V : Type} (inner : List (List String × V))
    (args : List String) (v : V) : argsGet (argsSet inner args v) args = Option.some v := by
  induction inner with
  | nil => simp [argsSet, argsGet]
  | cons hd tl ih =>
      obtain ⟨k, w⟩ := hd
      by_cases hk : k = args
      · have hfind : ((k, w) :: tl).find? (fun p => p.1 == args) = Option.some (k, w) :=
          List.find?_cons_of_pos _ (by simp [hk])
        simp [argsSet, argsGet, hfind, hk]
      · have hfind : ((k, w) :: tl).find? (fun p => p.1 == args) =
            tl.find? (fun p => p.1 == args) :=
          List.find?_cons_of_neg _ (by simp [hk])
        have hstep : argsSet ((k, w) :: tl) args v = (k, w) :: argsSet tl args v := by
          by_cases h2 : (tl.find? (fun p => p.1 == args)).isSome = true
          · simp [argsSet, hfind, h2, hk]
          · simp [argsSet, hfind, h2, hk]
        rw [hstep]
        have hget : argsGet ((k, w) :: argsSet tl args v) args =
            argsGet (argsSet tl args v) args := by
          simp [argsGet, List.find?_cons_of_neg, hk]
        rw [hget, ih]

theorem cacheGet_cacheSet {V : Type} (st : FSCacheT V) (name : String)
    (args : List String) (v : V) :
    cacheGet (cacheSet st name args v) name args = Option.some v := by
  unfold cacheGet cacheSet
  cases h : dlookup st name with
  | none => simp [dlookup_dset, argsGet]
  | some inner => simp [dlookup_dset, argsGet_argsSet]

/-! ### Claim C10 -/

/-- Claim C10: the core count of a step is always a positive integer.  It
starts at 1; set_cores rejects any non-int and any int below 1 (leaving the
stored value unchanged by raising); a successful set_cores stores a value
of at least 1; hence every reachable stored value, and with it the hashing
pool size of AbstractStep.run, is at least 1. -/
theorem C10_cores_positive :
    coresAfter [] = 1
    ∧ (∀ a i, set_cores a = Except.ok i → 1 ≤ i)
    ∧ (∀ i : Int, i < 1 → isError (set_cores (CoresArg.int i)))
    ∧ isError (set_cores CoresArg.nonInt)
    ∧ (∀ trace, 1 ≤ coresAfter trace)
    ∧ (∀ trace, 1 ≤ hashPoolSize trace) := by
  have hstep : ∀ (trace : List CoresArg) (cur : Int), 1 ≤ cur →
      1 ≤ trace.foldl
        (fun cur a =>
          match set_cores a with
          | Except.ok i => i
          | Except.error _ => cur) cur := by
    intro trace
    induction trace with
    | nil => intro cur h; simpa using h
    | cons a rest ih =>
        intro cur h
        simp only [List.foldl_cons]
        apply ih
        cases a with
        | int i =>
            by_cases hi : i < 1
            · simp [set_cores, hi, h]
            · simp [set_cores, hi]
              omega
        | nonInt => simp [set_cores, h]
  refine ⟨rfl, ?_, ?_, ?_, ?_, ?_⟩
  · intro a i h
    cases a with
    | int j =>
        by_cases hj : j < 1
        · simp [set_cores, hj] at h
        · simp [set_cores, hj] at h
          omega
    | nonInt => simp [set_cores] at h
  · intro i hi
    simp [set_cores, hi, isError]
  · simp [set_cores, isError]
  · intro trace
    exact hstep trace 1 (by norm_num)
  · intro trace
    exact hstep trace 1 (by norm_num)

/-- Witness for C10 at concrete inputs. -/
theorem C10_cores_positive_witness :
    (1 : Int) ≤ 4 ∧ isError (set_cores (CoresArg.int 0)) ∧
      1 ≤ coresAfter [CoresArg.int 4, CoresArg.nonInt, CoresArg.int 0] := by
  refine ⟨C10_cores_positive.2.1 (CoresArg.int 4) 4 rfl, ?_, ?_⟩
  · exact C10_cores_positive.2.2.1 0 (by decide)
  · exact C10_cores_positive.2.2.2.2.1 [CoresArg.int 4, CoresArg.nonInt, CoresArg.int 0]

/-! ### Claim C6 -/

/-- Claim C6: declare_run replaces every whitespace character of the run id
by an underscore (non-whitespace characters are kept in place, and no
whitespace remains), raises when the resulting id is already declared in
the same step, and otherwise registers a new run under the substituted
id. -/
theorem C6_declare_run :
    (∀ rid : String,
      (∀ i : Nat, (pyWsToUnderscore rid).data[i]? =
        (rid.data[i]?).map (fun c => if isPyWhitespace c then '_' else c))
      ∧ (∀ c ∈ (pyWsToUnderscore rid).data, isPyWhitespace c = false))
    ∧ (∀ runs rid, pyWsToUnderscore rid ∈ runs → isError (declare_run runs rid))
    ∧ (∀ runs rid, pyWsToUnderscore rid ∉ runs →
        declare_run runs rid =
          Except.ok (runs ++ [pyWsToUnderscore rid], pyWsToUnderscore rid)) := by
  refine ⟨?_, ?_, ?_⟩
  · intro rid
    constructor
    · intro i
      show (rid.data.map _)[i]? = _
      simp
    · intro c hc
      have hc' : c ∈ rid.data.map (fun c => if isPyWhitespace c then '_' else c) := hc
      obtain ⟨c', _, rfl⟩ := List.mem_map.1 hc'
      by_cases h : isPyWhitespace c' = true
      · simp [h]
        decide
      · have h' : isPyWhitespace c' = false := by simpa using h
        simp [h']
  · intro runs rid h
    simp [declare_run, h, isError]
  · intro runs rid h
    simp [declare_run, h]

/-- Witness for C6 at concrete inputs. -/
theorem C6_declare_run_witness :
    isError (declare_run ["a_b"] "a b")
    ∧ declare_run [] "a b" = Except.ok (["a_b"], "a_b") := by
  constructor
  · exact C6_declare_run.2.1 ["a_b"] "a b" (by decide)
  · exact C6_declare_run.2.2 [] "a b" (by decide)

/-! ### Claim C4 -/

/-- Counterexample to claim C4: add_connection does not reject duplicates.
Declaring the connection in/x twice on a fresh step succeeds both times,
and the second call returns the state unchanged (the name is silently
absorbed by the Python sets). -/
theorem C4_duplicate_not_rejected :
    add_connection ConnState.init "in/x" false Option.none Option.none =
      Except.ok ⟨["in/x"], [], true, [], []⟩
    ∧ add_connection ⟨["in/x"], [], true, [], []⟩ "in/x" false Option.none Option.none =
      Except.ok ⟨["in/x"], [], true, [], []⟩ := by
  constructor <;> rfl

/-- Claim C4 as amended: add_connection raises exactly when the connection
name does not start with in/ or out/; in particular a duplicate connection
name is never an error, the repeated name is silently absorbed into the
connection sets, which stay unchanged. -/
theorem C4_add_connection :
    (∀ st c o f d, isError (add_connection st c o f d) ↔
        ¬ (c.take 3 = "in/" ∨ c.take 4 = "out/"))
    ∧ (∀ st c, (c.take 3 = "in/" ∨ c.take 4 = "out/") → c ∈ st.connections →
        ∃ st', add_connection st c false Option.none Option.none = Except.ok st'
          ∧ st'.connections = st.connections
          ∧ st'.optionalConnections = st.optionalConnections) := by
  constructor
  · intro st c o f d
    by_cases h : c.take 3 = "in/" ∨ c.take 4 = "out/"
    · simp only [h, not_true_eq_false, iff_false]
      intro hcontra
      unfold add_connection at hcontra
      rw [if_neg (not_not_intro h)] at hcontra
      cases f <;> cases d <;> simp [isError] at hcontra
    · simp [add_connection, h, isError]
  · intro st c hpre hmem
    by_cases hin : c.take 3 = "in/"
    · refine ⟨{ st with needsParents := true, connections := setAdd st.connections c },
        ?_, ?_, rfl⟩
      · simp [add_connection, hin, hpre]
      · simp [setAdd, hmem]
    · have hout : c.take 4 = "out/" := hpre.resolve_left hin
      refine ⟨{ st with connections := setAdd st.connections c }, ?_, ?_, rfl⟩
      · simp [add_connection, hin, hout]
      · simp [setAdd, hmem]

/-- Witness for C4 at concrete inputs. -/
theorem C4_add_connection_witness :
    (isError (add_connection ConnState.init "raw" false Option.none Option.none) ↔
      ¬ ("raw".take 3 = "in/" ∨ "raw".take 4 = "out/"))
    ∧ ∃ st', add_connection ⟨["in/x"], [], true, [], []⟩ "in/x" false Option.none Option.none =
        Except.ok st'
        ∧ st'.connections = (⟨["in/x"], [], true, [], []⟩ : ConnState).connections
        ∧ st'.optionalConnections = (⟨["in/x"], [], true, [], []⟩ : ConnState).optionalConnections :=
  ⟨C4_add_connection.1 ConnState.init "raw" false Option.none Option.none,
   C4_add_connection.2 ⟨["in/x"], [], true, [], []⟩ "in/x" (Or.inl (by decide)) (by decide)⟩

/-! ### Claim C1 -/

/-- Claim C1: when the executing-ping file already exists (and hence the
output directory that contains it exists), AbstractStep.run aborts with the
already-running error before creating the temporary output directory and
before writing any ping file; the filesystem is returned exactly as it
was. -/
theorem C1_executing_ping_aborts (fs : FS) (r : RunPaths)
    (hping : fs.pexists r.executingPing = true)
    (hdir : fs.isDir r.outputDir = true) :
    runPreflight fs r = (fs, Option.some "seems to be already running, exiting...") := by
  unfold runPreflight
  simp [hdir, hping]

/-- Witness for C1 at a concrete filesystem. -/
theorem C1_executing_ping_aborts_witness :
    runPreflight ⟨["od"], ["od/.r.executing.yaml"]⟩
        ⟨"od", "od/.r.executing.yaml", "od/.r.queued.yaml", "od/temp-r-1"⟩ =
      (⟨["od"], ["od/.r.executing.yaml"]⟩, Option.some "seems to be already running, exiting...") :=
  C1_executing_ping_aborts _ _ (by decide) (by decide)

/-! ### Claim C9 -/

/-- Claim C9: FSCache memoizes per instance.  A second call with the same
method name and argument tuple returns the value cached by the first call
and leaves the cache unchanged, for any state of the underlying filesystem
at the time of the second call; a call after clear recomputes from the
filesystem; and sha256sum_of with a non-None value stores that value and
returns it, overriding any previously cached hash for the path. -/
theorem C9_fscache_memoizes :
    (∀ (V : Type) (fs : Nat → String → List String → V) (t1 t2 : Nat)
        (st st' : FSCacheT V) (name : String) (args : List String) (v : V),
        fscCall fs t1 st name args = (v, st') →
        fscCall fs t2 st' name args = (v, st'))
    ∧ (∀ (V : Type) (fs : Nat → String → List String → V) (t : Nat)
        (st : FSCacheT V) (name : String) (args : List String),
        (fscCall fs t (fscClear st) name args).1 = fs t name args)
    ∧ (∀ (V : Type) (sha : Nat → String → V) (t t' : Nat) (st : FSCacheT V)
        (path : String) (v : V),
        (sha256sum_of sha t st path (Option.some v)).1 = v
        ∧ (sha256sum_of sha t'
            (sha256sum_of sha t st path (Option.some v)).2 path Option.none).1 = v) := by
  refine ⟨?_, ?_, ?_⟩
  · intro V fs t1 t2 st st' name args v h
    unfold fscCall at h ⊢
    cases hget : cacheGet st name args with
    | some w =>
        rw [hget] at h
        have hv : w = v := congrArg Prod.fst h
        have hst : st = st' := congrArg Prod.snd h
        subst hv
        subst hst
        rw [hget]
    | none =>
        rw [hget] at h
        have hv : v = fs t1 name args := (congrArg Prod.fst h).symm
        have hst : st' = cacheSet st name args (fs t1 name args) :=
          (congrArg Prod.snd h).symm
        subst hv
        subst hst
        rw [cacheGet_cacheSet]
  · intro V fs t st name args
    simp [fscCall, fscClear, cacheGet, dlookup]
  · intro V sha t t' st path v
    constructor
    · rfl
    · simp [sha256sum_of, cacheGet_cacheSet]

/-- Witness for C9 at concrete inputs. -/
theorem C9_fscache_memoizes_witness :
    fscCall (fun t _ _ => t) 1 [("exists", [(["p"], 0)])] "exists" ["p"] =
      (0, [("exists", [(["p"], 0)])]) :=
  C9_fscache_memoizes.1 Nat (fun t _ _ => t) 0 1 [] _ "exists" ["p"] 0 rfl

/-! ### Claim C7 -/

theorem setOptionsLoop_underscore_err (defined : List (String × OptInfo))
    (k : String) (v : PyVal) (hu : k.take 1 = "_") (hbad : k ∉ UNDERSCORE_OPTIONS) :
    ∀ (l : List (String × PyVal)) (acc : List (String × PyVal)),
      (k, v) ∈ l → isError (setOptionsLoop defined acc l) := by
  intro l
  induction l with
  | nil => intro acc hmem; cases hmem
  | cons hd tl ih =>
      intro acc hmem
      obtain ⟨k0, v0⟩ := hd
      rcases List.mem_cons.1 hmem with heq | hmem'
      · cases heq
        simp [setOptionsLoop, hu, hbad, isError]
      · by_cases h0 : k0.take 1 = "_"
        · by_cases h1 : k0 ∈ UNDERSCORE_OPTIONS
          · simpa [setOptionsLoop, h0, h1] using ih (dset acc k0 v0) hmem'
          · simp [setOptionsLoop, h0, h1, isError]
        · cases hl : dlookup defined k0 with
          | none => simp [setOptionsLoop, h0, hl, isError]
          | some info =>
              by_cases h2 : optTypeBad info v0 = true
              · simp [setOptionsLoop, h0, hl, h2, isError]
              · by_cases h3 : optChoiceBad info v0 = true
                · simp [setOptionsLoop, h0, hl, h2, h3, isError]
                · simpa [setOptionsLoop, h0, hl, h2, h3] using ih (dset acc k0 v0) hmem'

/-- Claim C7: set_options accepts an option key beginning with an
underscore exactly when it is one of the eight engine-reserved keys; any
other underscore key makes set_options raise, and each of the eight keys
passes the underscore check (shown end to end on a configuration holding
only that key). -/
theorem C7_underscore_options :
    (∀ (defined : List (String × OptInfo)) (options : List (String × PyVal))
        (k : String) (v : PyVal),
        (k, v) ∈ options → k.take 1 = "_" → k ∉ UNDERSCORE_OPTIONS →
        isError (set_options defined options))
    ∧ (∀ k ∈ UNDERSCORE_OPTIONS, exOk (set_options [] [(k, PyVal.pdict [])]) = true) := by
  constructor
  · intro defined options k v hmem hu hbad
    have h1 := setOptionsLoop_underscore_err defined k v hu hbad options [] hmem
    cases hx : setOptionsLoop defined [] options with
    | error e =>
        unfold set_options
        rw [hx]
        exact trivial
    | ok d =>
        rw [hx] at h1
        exact h1.elim
  · intro k hk
    fin_cases hk <;> rfl

/-- Witness for C7 at concrete inputs. -/
theorem C7_underscore_options_witness :
    isError (set_options [] [("_foo", PyVal.pnone)])
    ∧ exOk (set_options [] [("_volatile", PyVal.pdict [])]) = true :=
  ⟨C7_underscore_options.1 [] [("_foo", PyVal.pnone)] "_foo" PyVal.pnone (by simp)
      (by decide) (by decide),
   C7_underscore_options.2 "_volatile" (by decide)⟩

/-! ### Claim C8 -/

theorem appendParents_spec :
    ∀ (vs : List PyVal) (ps : List String) (explicit : List PyVal),
      parentNamesOf vs = Option.some ps →
      appendParents explicit vs = Except.ok (claimDepends explicit ps) := by
  intro vs
  induction vs with
  | nil =>
      intro ps explicit h
      simp only [parentNamesOf, Option.some.injEq] at h
      subst h
      simp [appendParents, claimDepends]
  | cons v tl ih =>
      intro ps explicit h
      cases v with
      | pstr s =>
          cases htl : parentNamesOf tl with
          | none => simp [parentNamesOf, htl] at h
          | some ps' =>
              rw [show parentNamesOf (PyVal.pstr s :: tl) =
                  (parentNamesOf tl).map
                    (fun ps => String.mk (s.data.takeWhile (fun c => c ≠ '/')) :: ps)
                from rfl, htl] at h
              have h' : String.mk (s.data.takeWhile (fun c => c ≠ '/')) :: ps' = ps :=
                Option.some.inj h
              subst h'
              have hstep : appendParents explicit (PyVal.pstr s :: tl) =
                  (if ¬ pyStrInList (String.mk (s.data.takeWhile (fun c => c ≠ '/')))
                      explicit ∧ String.mk (s.data.takeWhile (fun c => c ≠ '/')) ≠ "empty"
                   then appendParents (explicit ++
                     [PyVal.pstr (String.mk (s.data.takeWhile (fun c => c ≠ '/')))]) tl
                   else appendParents explicit tl) := rfl
              have hcons : claimDepends explicit
                  (String.mk (s.data.takeWhile (fun c => c ≠ '/')) :: ps') =
                  claimDepends
                    (if pyStrInList (String.mk (s.data.takeWhile (fun c => c ≠ '/')))
                        explicit = true ∨
                        String.mk (s.data.takeWhile (fun c => c ≠ '/')) = "empty"
                     then explicit
                     else explicit ++
                       [PyVal.pstr (String.mk (s.data.takeWhile (fun c => c ≠ '/')))]) ps' :=
                rfl
              by_cases hc : pyStrInList (String.mk (s.data.takeWhile (fun c => c ≠ '/')))
                  explicit = true ∨ String.mk (s.data.takeWhile (fun c => c ≠ '/')) = "empty"
              · rw [hstep, if_neg (by tauto), ih ps' explicit htl, hcons, if_pos hc]
              · rw [hstep, if_pos (by tauto),
                  ih ps' (explicit ++
                    [PyVal.pstr (String.mk (s.data.takeWhile (fun c => c ≠ '/')))]) htl,
                  hcons, if_neg hc]
      | pnone => simp [parentNamesOf] at h
      | pbool b => simp [parentNamesOf] at h
      | pint i => simp [parentNamesOf] at h
      | plist l => simp [parentNamesOf] at h
      | pdict d => simp [parentNamesOf] at h

theorem claimDepends_extends :
    ∀ (ps : List String) (explicit : List PyVal),
      ∃ extra, claimDepends explicit ps = explicit ++ extra := by
  intro ps
  induction ps with
  | nil => intro explicit; exact ⟨[], by simp [claimDepends]⟩
  | cons p tl ih =>
      intro explicit
      by_cases hc : pyStrInList p explicit = true ∨ p = "empty"
      · obtain ⟨extra, he⟩ := ih explicit
        refine ⟨extra, ?_⟩
        have hstep : claimDepends explicit (p :: tl) = claimDepends explicit tl := by
          simp [claimDepends, hc]
        rw [hstep, he]
      · obtain ⟨extra, he⟩ := ih (explicit ++ [PyVal.pstr p])
        refine ⟨PyVal.pstr p :: extra, ?_⟩
        have hstep : claimDepends explicit (p :: tl) =
            claimDepends (explicit ++ [PyVal.pstr p]) tl := by
          simp [claimDepends, hc]
        rw [hstep, he, List.append_assoc]
        rfl

set_option maxHeartbeats 1000000

/-- Claim C8: after set_options, the depends option is the explicitly
configured depends list, in order and with nothing removed, followed by
each parent name referenced by a connect binding that is not already in the
list and is not the special name empty, appended in binding order. -/
theorem C8_depends_order (explicit : List PyVal) (conns : List (String × PyVal))
    (ps : List String) (hps : claimConnectParents conns = Option.some ps) :
    ∃ d, set_options []
        [("_depends", PyVal.plist explicit), ("_connect", PyVal.pdict conns)] =
        Except.ok d
      ∧ dlookup d "_depends" = Option.some (PyVal.plist (claimDepends explicit ps))
      ∧ ∃ extra, claimDepends explicit ps = explicit ++ extra := by
  have hap := appendParents_spec (bindingTargets conns) ps explicit hps
  have hA : set_options []
      [("_depends", PyVal.plist explicit), ("_connect", PyVal.pdict conns)] =
      addImpliedDepends (normalizeDepends (applyStaticDefaults
        [("_depends", PyVal.plist explicit), ("_connect", PyVal.pdict conns)])) := rfl
  have hB : addImpliedDepends (normalizeDepends (applyStaticDefaults
      [("_depends", PyVal.plist explicit), ("_connect", PyVal.pdict conns)])) =
      (match appendParents explicit (bindingTargets conns) with
       | Except.error e => Except.error e
       | Except.ok nd => Except.ok (dset (normalizeDepends (applyStaticDefaults
           [("_depends", PyVal.plist explicit), ("_connect", PyVal.pdict conns)]))
           "_depends" (PyVal.plist nd))) := rfl
  refine ⟨dset (normalizeDepends (applyStaticDefaults
      [("_depends", PyVal.plist explicit), ("_connect", PyVal.pdict conns)]))
      "_depends" (PyVal.plist (claimDepends explicit ps)),
    ?_, dlookup_dset _ _ _, claimDepends_extends ps explicit⟩
  rw [hA, hB, hap]

/-- Witness for C8 at concrete inputs. -/
theorem C8_depends_order_witness :
    ∃ d, set_options []
        [("_depends", PyVal.plist [PyVal.pstr "a"]),
         ("_connect", PyVal.pdict
           [("in/reads", PyVal.pstr "p1/out"),
            ("in/more", PyVal.plist [PyVal.pstr "empty", PyVal.pstr "a"])])] =
        Except.ok d
      ∧ dlookup d "_depends" = Option.some (PyVal.plist
          (claimDepends [PyVal.pstr "a"] ["p1", "empty", "a"]))
      ∧ ∃ extra, claimDepends [PyVal.pstr "a"] ["p1", "empty", "a"] =
          [PyVal.pstr "a"] ++ extra :=
  C8_depends_order [PyVal.pstr "a"]
    [("in/reads", PyVal.pstr "p1/out"),
     ("in/more", PyVal.plist [PyVal.pstr "empty", PyVal.pstr "a"])]
    ["p1", "empty", "a"] rfl

/-! ### Claim C2 -/

theorem collectFiles_ok_or_missing (kd : List (String × String)) (tc : List String)
    (td od : String) :
    ∀ fl : List (Option String),
      (∀ f, Option.some f ∈ fl → hasSlash f = false →
        dlookup kd (od ++ "/" ++ pyBasename f) = Option.some "output") →
      (∃ m, collectFiles kd tc td od fl = Except.ok m) ∨
      (∃ g s, collectFiles kd tc td od fl = Except.error (IntegrityErr.missingOutput g s)) := by
  intro fl
  induction fl with
  | nil => intro _; exact Or.inl ⟨[], rfl⟩
  | cons hd tl ih =>
      intro hkd
      have hkd' : ∀ f, Option.some f ∈ tl → hasSlash f = false →
          dlookup kd (od ++ "/" ++ pyBasename f) = Option.some "output" :=
        fun f hf hs => hkd f (List.mem_cons_of_mem _ hf) hs
      cases hd with
      | none =>
          have hred : collectFiles kd tc td od (Option.none :: tl) =
              collectFiles kd tc td od tl := rfl
          rw [hred]
          exact ih hkd'
      | some f =>
          by_cases hs : hasSlash f = true
          · have hred : collectFiles kd tc td od (Option.some f :: tl) =
                collectFiles kd tc td od tl := by
              simp [collectFiles, hs]
            rw [hred]
            exact ih hkd'
          · have hsf : hasSlash f = false := by simpa using hs
            have hdes := hkd f (List.mem_cons_self _ _) hsf
            by_cases hm : tc.contains (pyBasename f) = true
            · have hmm : pyBasename f ∈ tc := by simpa using hm
              have hred : collectFiles kd tc td od (Option.some f :: tl) =
                  (collectFiles kd tc td od tl).map
                    (fun m => (td ++ "/" ++ pyBasename f, od ++ "/" ++ pyBasename f) :: m) := by
                simp [collectFiles, hsf, hmm, hdes]
              rw [hred]
              rcases ih hkd' with ⟨m, hm2⟩ | ⟨g, s2, hm2⟩
              · exact Or.inl ⟨_, by rw [hm2]; rfl⟩
              · exact Or.inr ⟨g, s2, by rw [hm2]; rfl⟩
            · have hmn : pyBasename f ∉ tc := by simpa using hm
              have hred : collectFiles kd tc td od (Option.some f :: tl) =
                  Except.error (IntegrityErr.missingOutput f (td ++ "/" ++ pyBasename f)) := by
                simp [collectFiles, hsf, hmn]
              exact Or.inr ⟨_, _, hred⟩

theorem collectFiles_missing (kd : List (String × String)) (tc : List String)
    (td od : String) :
    ∀ fl : List (Option String),
      (∀ f, Option.some f ∈ fl → hasSlash f = false →
        dlookup kd (od ++ "/" ++ pyBasename f) = Option.some "output") →
      ∀ f, Option.some f ∈ fl → hasSlash f = false →
        tc.contains (pyBasename f) = false →
      ∃ g s, collectFiles kd tc td od fl = Except.error (IntegrityErr.missingOutput g s) := by
  intro fl
  induction fl with
  | nil => intro _ f hf; cases hf
  | cons hd tl ih =>
      intro hkd f hf hsf hmiss
      have hkd' : ∀ f, Option.some f ∈ tl → hasSlash f = false →
          dlookup kd (od ++ "/" ++ pyBasename f) = Option.some "output" :=
        fun f hf hs => hkd f (List.mem_cons_of_mem _ hf) hs
      rcases List.mem_cons.1 hf with heq | hf'
      · have hmn : pyBasename f ∉ tc := by simpa using hmiss
        have hred : collectFiles kd tc td od (hd :: tl) =
            Except.error (IntegrityErr.missingOutput f (td ++ "/" ++ pyBasename f)) := by
          rw [← heq]
          simp [collectFiles, hsf, hmn]
        exact ⟨_, _, hred⟩
      · cases hd with
        | none =>
            have hred : collectFiles kd tc td od (Option.none :: tl) =
                collectFiles kd tc td od tl := rfl
            rw [hred]
            exact ih hkd' f hf' hsf hmiss
        | some f0 =>
            by_cases hs0 : hasSlash f0 = true
            · have hred : collectFiles kd tc td od (Option.some f0 :: tl) =
                  collectFiles kd tc td od tl := by
                simp [collectFiles, hs0]
              rw [hred]
              exact ih hkd' f hf' hsf hmiss
            · have hsf0 : hasSlash f0 = false := by simpa using hs0
              have hdes0 := hkd f0 (List.mem_cons_self _ _) hsf0
              by_cases hm0 : tc.contains (pyBasename f0) = true
              · have hmm0 : pyBasename f0 ∈ tc := by simpa using hm0
                have hred : collectFiles kd tc td od (Option.some f0 :: tl) =
                    (collectFiles kd tc td od tl).map
                      (fun m => (td ++ "/" ++ pyBasename f0, od ++ "/" ++ pyBasename f0) :: m) := by
                  simp [collectFiles, hsf0, hmm0, hdes0]
                obtain ⟨g, s2, he⟩ := ih hkd' f hf' hsf hmiss
                refine ⟨g, s2, ?_⟩
                rw [hred, he]
                rfl
              · have hmn0 : pyBasename f0 ∉ tc := by simpa using hm0
                have hred : collectFiles kd tc td od (Option.some f0 :: tl) =
                    Except.error (IntegrityErr.missingOutput f0 (td ++ "/" ++ pyBasename f0)) := by
                  simp [collectFiles, hsf0, hmn0]
                exact ⟨_, _, hred⟩

theorem collectToBeMoved_missing (kd : List (String × String)) (tc : List String)
    (td od : String) :
    ∀ ofs : List (String × List (Option String)),
      (∀ t fl f, (t, fl) ∈ ofs → Option.some f ∈ fl → hasSlash f = false →
        dlookup kd (od ++ "/" ++ pyBasename f) = Option.some "output") →
      ∀ tag fl f, (tag, fl) ∈ ofs → Option.some f ∈ fl → hasSlash f = false →
        tc.contains (pyBasename f) = false →
      ∃ g s, collectToBeMoved kd tc td od ofs =
        Except.error (IntegrityErr.missingOutput g s) := by
  intro ofs
  induction ofs with
  | nil => intro _ tag fl f hmem; cases hmem
  | cons hd rest ih =>
      intro hkd tag fl f hmem hf hsf hmiss
      obtain ⟨t0, fl0⟩ := hd
      have hkd0 : ∀ f, Option.some f ∈ fl0 → hasSlash f = false →
          dlookup kd (od ++ "/" ++ pyBasename f) = Option.some "output" :=
        fun f hf hs => hkd t0 fl0 f (List.mem_cons_self _ _) hf hs
      have hkd' : ∀ t fl f, (t, fl) ∈ rest → Option.some f ∈ fl → hasSlash f = false →
          dlookup kd (od ++ "/" ++ pyBasename f) = Option.some "output" :=
        fun t fl f hm hf hs => hkd t fl f (List.mem_cons_of_mem _ hm) hf hs
      rcases List.mem_cons.1 hmem with heq | hmem'
      · have hfl : fl = fl0 := congrArg Prod.snd heq
        obtain ⟨g, s2, he⟩ := collectFiles_missing kd tc td od fl0 hkd0 f
          (hfl ▸ hf) hsf hmiss
        refine ⟨g, s2, ?_⟩
        show collectToBeMoved kd tc td od ((t0, fl0) :: rest) = _
        rw [collectToBeMoved, he]
      · rcases collectFiles_ok_or_missing kd tc td od fl0 hkd0 with ⟨m, hok⟩ | ⟨g, s2, he⟩
        · obtain ⟨g, s2, he⟩ := ih hkd' tag fl f hmem' hf hsf hmiss
          refine ⟨g, s2, ?_⟩
          show collectToBeMoved kd tc td od ((t0, fl0) :: rest) = _
          rw [collectToBeMoved, hok, he]
        · refine ⟨g, s2, ?_⟩
          show collectToBeMoved kd tc td od ((t0, fl0) :: rest) = _
          rw [collectToBeMoved, he]

/-- Claim C2: when the exec groups finished without signal or exception and
some declared output basename (not None, without slash) is missing from the
temporary directory, the output-collection loop of AbstractStep.run raises
the announced-output-missing error, and nothing at all is renamed into the
output directory, in particular not the missing file. -/
theorem C2_missing_announced_output (kd : List (String × String)) (tc : List String)
    (td od : String) (ofs : List (String × List (Option String)))
    (tag : String) (fl : List (Option String)) (f : String)
    (hkd : ∀ t fl' f', (t, fl') ∈ ofs → Option.some f' ∈ fl' → hasSlash f' = false →
      dlookup kd (od ++ "/" ++ pyBasename f') = Option.some "output")
    (hmem : (tag, fl) ∈ ofs) (hf : Option.some f ∈ fl) (hsf : hasSlash f = false)
    (hmiss : tc.contains (pyBasename f) = false) :
    (∃ g s, collectToBeMoved kd tc td od ofs =
      Except.error (IntegrityErr.missingOutput g s))
    ∧ movedFiles kd tc td od ofs = [] := by
  obtain ⟨g, s2, he⟩ := collectToBeMoved_missing kd tc td od ofs hkd tag fl f
    hmem hf hsf hmiss
  exact ⟨⟨g, s2, he⟩, by simp [movedFiles, he]⟩

/-- Witness for C2 at concrete inputs. -/
theorem C2_missing_announced_output_witness :
    (∃ g s, collectToBeMoved [("od/a.txt", "output")] [] "td" "od"
        [("raw", [Option.some "a.txt"])] =
      Except.error (IntegrityErr.missingOutput g s))
    ∧ movedFiles [("od/a.txt", "output")] [] "td" "od"
        [("raw", [Option.some "a.txt"])] = [] :=
  C2_missing_announced_output [("od/a.txt", "output")] [] "td" "od"
    [("raw", [Option.some "a.txt"])] "raw" [Option.some "a.txt"] "a.txt"
    (by
      intro t fl' f' hmem hf hsf
      simp only [List.mem_singleton, Prod.mk.injEq] at hmem
      obtain ⟨rfl, rfl⟩ := hmem
      simp only [List.mem_singleton, Option.some.injEq] at hf
      subst hf
      decide)
    (by decide) (by decide) (by decide) (by decide)

/-! ### Claim C3 -/

/-- Counterexample to claim C3: a step whose only required in-connection
in/reads stays unsatisfied (the sole parent binds only the optional
connection in/other) still builds successfully; the resolver returns the
established connections together with two warnings and raises no error. -/
theorem C3_unsatisfied_required_no_error :
    get_run_ids_in_connections_input_files ["in/reads", "in/other"] ["in/reads"] []
      [⟨"p", true, ["p/out"], ["in/other"], [], []⟩] =
      Except.ok (["in/other"],
        ["the required connection is not satisfied",
         "Deprecation: unmet required connections may trigger an error in future versions"]) :=
  rfl

theorem connectParents_ok :
    ∀ parents : List ParentConn,
      (∀ p ∈ parents, p.hasRuns = true ∧ p.usedOut ≠ []) →
      ∀ uAcc eAcc, ∃ u e, connectParents uAcc eAcc parents = Except.ok (u, e) := by
  intro parents
  induction parents with
  | nil => intro _ uAcc eAcc; exact ⟨uAcc, eAcc, rfl⟩
  | cons p rest ih =>
      intro hp uAcc eAcc
      obtain ⟨hr, hu⟩ := hp p (List.mem_cons_self _ _)
      obtain ⟨u, e, he⟩ := ih (fun q hq => hp q (List.mem_cons_of_mem _ hq))
        (p.usedOut.foldl setAdd uAcc) (p.estIn.foldl setAdd eAcc)
      refine ⟨u, e, ?_⟩
      have e1 : connectParents uAcc eAcc (p :: rest) =
          (if ¬ p.hasRuns then
            Except.error ("The step " ++ p.name ++ " produces no output.")
           else
             if (if p.usedOut ≠ [] then (p.usedOut, p.estIn)
                 else (p.autoUsedOut, p.autoEstIn)).1 = [] then
               Except.error
                 ("No connections could be made between the step and " ++ p.name ++ ".")
             else
               connectParents
                 ((if p.usedOut ≠ [] then (p.usedOut, p.estIn)
                   else (p.autoUsedOut, p.autoEstIn)).1.foldl setAdd uAcc)
                 ((if p.usedOut ≠ [] then (p.usedOut, p.estIn)
                   else (p.autoUsedOut, p.autoEstIn)).2.foldl setAdd eAcc) rest) := rfl
      rw [e1, if_neg (by simp [hr]), if_pos hu,
        if_neg (show ¬ ((p.usedOut, p.estIn).1 = []) from hu)]
      exact he

/-- Claim C3 as amended: when, after binding all parents, a required
(non-optional) input connection of the step remains unsatisfied, building
the runs does not fail; the resolver returns successfully and merely emits
deprecation warnings (the warning list is non-empty exactly in that
case). -/
theorem C3_required_connection_warns (allIn requiredIn : List String)
    (parents : List ParentConn)
    (hp : ∀ p ∈ parents, p.hasRuns = true ∧ p.usedOut ≠ []) :
    ∃ ex ws, get_run_ids_in_connections_input_files allIn requiredIn [] parents =
        Except.ok (ex, ws)
      ∧ (∀ c ∈ requiredIn, c ∉ ex → ws ≠ []) := by
  obtain ⟨u, e, he⟩ := connectParents_ok parents hp [] []
  refine ⟨e, if requiredIn.filter (fun c => c ∉ e) ≠ [] then
      ["the required connection is not satisfied",
       "Deprecation: unmet required connections may trigger an error in future versions"]
    else [], ?_, ?_⟩
  · unfold get_run_ids_in_connections_input_files
    rw [if_neg (by simp)]
    rw [he]
    simp
  · intro c hc hnotin
    have hcf : c ∈ requiredIn.filter (fun c => c ∉ e) :=
      List.mem_filter.2 ⟨hc, by simpa using hnotin⟩
    have hne : requiredIn.filter (fun c => c ∉ e) ≠ [] := by
      intro h0
      rw [h0] at hcf
      cases hcf
    rw [if_pos hne]
    exact List.cons_ne_nil _ _

/-- Witness for the amended C3 at concrete inputs. -/
theorem C3_required_connection_warns_witness :
    ∃ ex ws, get_run_ids_in_connections_input_files ["in/reads", "in/other"] ["in/reads"] []
        [⟨"p", true, ["p/out"], ["in/other"], [], []⟩] = Except.ok (ex, ws)
      ∧ (∀ c ∈ ["in/reads"], c ∉ ex → ws ≠ []) :=
  C3_required_connection_warns ["in/reads", "in/other"] ["in/reads"]
    [⟨"p", true, ["p/out"], ["in/other"], [], []⟩]
    (by
      intro p hp
      simp only [List.mem_singleton] at hp
      subst hp
      exact ⟨rfl, by decide⟩)

/-! ### Claim C5 -/

/-- Claim C5: whenever RawUrlSource.runs accepts an entry of the
run-download-info option, the name declared on the out connection raw is
exactly the user-supplied filename value of that entry; the name derived
from the URL is unconditionally overwritten and never reaches the declared
output. -/
theorem C5_user_filename_wins (downloads : List (String × PyVal)) (fn : String)
    (h : rawUrlProcessEntry downloads = Except.ok fn) :
    dlookup downloads "filename" = Option.some (PyVal.pstr fn) := by
  unfold rawUrlProcessEntry at h
  dsimp only at h
  split at h
  · exact Except.noConfusion h
  · split at h
    · exact Except.noConfusion h
    · split at h
      · exact Except.noConfusion h
      · split at h
        · exact Except.noConfusion h
        · split at h
          · split at h
            · exact Except.noConfusion h
            · split at h
              · rename_i fn' heq
                split at h
                · exact Except.noConfusion h
                · have hfn : fn' = fn := Except.ok.inj h
                  subst hfn
                  rw [dlookup_dset_ne _ _ _ _ (by decide),
                    dlookup_dset_ne _ _ _ _ (by decide),
                    dlookup_dset_ne _ _ _ _ (by decide)] at heq
                  exact heq
              · exact Except.noConfusion h
          · exact Except.noConfusion h

/-- Witness for C5 at a concrete entry. -/
theorem C5_user_filename_wins_witness :
    dlookup [("filename", PyVal.pstr "out.txt"), ("url", PyVal.pstr "u")] "filename" =
      Option.some (PyVal.pstr "out.txt") :=
  C5_user_filename_wins [("filename", PyVal.pstr "out.txt"), ("url", PyVal.pstr "u")]
    "out.txt" rfl

end Uap
